import Mathlib

/- Verification development for the petclaw repository.

   We give a shallow embedding of the boundary-condition and CFL-communication
   code of petclaw/evolve/clawpack.py (class PetClawSolver: methods qbc,
   qbc_lower, qbc_upper, communicateCFL), and of two routines of the
   shallow-water-on-the-sphere application
   apps/shallow-sphere/shallow-4-Rossby-Haurwitz-wave.py
   (the divisor computation of mapc2p_sphere_nonvectorized and
   mapc2p_sphere_vectorized, and the per-cell initial-condition
   computation of qinit), and prove theorems about their behaviour.

   The ghosted solution array of a grid is modelled, after the driver has
   rolled the dimension under consideration to axis position 1, as a
   function from a component index (axis 0 of the numpy array) and a
   position along the rolled axis to a value of an arbitrary type with
   negation; the remaining trailing axes of the numpy array are absorbed
   into that value type.  Machine floats are modelled as rationals. -/

namespace PyClaw

/- Python runtime errors the embedded code can produce.  A raise statement
   whose exception-constructing expression itself reads an undefined name
   does not raise the written exception: evaluating the message operand
   raises NameError first.  This happens in qbc_lower and qbc_upper, whose
   raise statements interpolate x.mthbc_lower although no name x is in
   scope, and in qinit, whose third-quadrant branch reads a bare name pi. -/
inductive PyErr where
  | nameError (missing : String)
  | notImplementedError (msg : String)
  | configurationError (msg : String)
  deriving DecidableEq, Repr

def PyErr.isConfigurationError : PyErr → Bool
  | .configurationError _ => true
  | _ => false

/- Reads one entry of the array produced by a boundary fill, when the fill
   completed without an exception. -/
def entryOk {α : Type} (e : Except PyErr (Nat → Nat → α)) (c i : Nat) : Option α :=
  match e with
  | .ok r => some (r c i)
  | .error _ => none

def errOf {β : Type} (e : Except PyErr β) : Option PyErr :=
  match e with
  | .ok _ => none
  | .error err => some err

/- The grid attributes read by the boundary-condition code. -/
structure Grid where
  ndim : Nat
  mbc : Nat

/- The per-dimension attributes read by the boundary-condition code.
   nstart and nend locate the partition of this process inside the global
   index range of the dimension, whose global cell count is n. -/
structure Dim where
  name : String
  mthbc_lower : Nat
  mthbc_upper : Nat
  nstart : Nat
  nend : Nat
  n : Nat

/- Python indexing into an axis of length len: a negative index counts from
   the end of the axis. -/
def pyIdx (len : Nat) (i : Int) : Nat :=
  if i < 0 then len - (-i).toNat else i.toNat

/- The slice assignment qbc[:, dst, ...] = qbc[:, src, ...]: every
   component row gets the value of its src column written at its dst
   column.  N is the length of the rolled axis. -/
def copyCol {α : Type} (N : Nat) (q : Nat → Nat → α) (dst src : Int) : Nat → Nat → α :=
  fun c j => if j = pyIdx N dst then q c (pyIdx N src) else q c j

/- The assignment qbc[comp, dst, ...] = -qbc[comp, src, ...] on a single
   component row. -/
def negEntry {α : Type} [Neg α] (N : Nat) (q : Nat → Nat → α) (comp : Nat)
    (dst src : Int) : Nat → Nat → α :=
  fun c j => if c = comp ∧ j = pyIdx N dst then -q c (pyIdx N src) else q c j

/- One iteration of the solid-wall loop of qbc_lower:
   qbc[:, i, ...] = qbc[:, mbc + 1 - i, ...] followed by
   qbc[comp, i, ...] = -qbc[comp, mbc + 1 - i, ...]. -/
def wallLowerStep {α : Type} [Neg α] (N mbc comp : Nat)
    (acc : Nat → Nat → α) (i : Nat) : Nat → Nat → α :=
  negEntry N (copyCol N acc (i : Int) ((mbc : Int) + 1 - (i : Int))) comp
    (i : Int) ((mbc : Int) + 1 - (i : Int))

/- One iteration of the solid-wall loop of qbc_upper:
   qbc[:, -i-1, ...] = qbc[:, -mbc-2+i, ...] followed by
   qbc[comp, -i-1, ...] = -qbc[comp, -mbc-2+i, ...]. -/
def wallUpperStep {α : Type} [Neg α] (N mbc comp : Nat)
    (acc : Nat → Nat → α) (i : Nat) : Nat → Nat → α :=
  negEntry N (copyCol N acc (-(i : Int) - 1) (-(mbc : Int) - 2 + (i : Int))) comp
    (-(i : Int) - 1) (-(mbc : Int) - 2 + (i : Int))

/- PetClawSolver.qbc_lower.  The two raise statements interpolate
   x.mthbc_lower with x undefined, so what Python actually raises there is
   NameError on x, before any NotImplementedError is constructed. -/
def qbc_lower {α : Type} [Neg α] (user_bc_lower : (Nat → Nat → α) → Nat → Nat → α)
    (grid : Grid) (dim : Dim) (N : Nat) (q : Nat → Nat → α) :
    Except PyErr (Nat → Nat → α) :=
  if dim.mthbc_lower = 0 then .ok (user_bc_lower q)
  else if dim.mthbc_lower = 1 then
    .ok (if dim.nstart = 0 then
      (List.range grid.mbc).foldl
        (fun acc (i : Nat) => copyCol N acc (i : Int) (grid.mbc : Int)) q
    else q)
  else if dim.mthbc_lower = 2 then .ok q
  else if dim.mthbc_lower = 3 then
    if dim.nstart = 0 then
      if grid.ndim = 1 then
        .ok ((List.range grid.mbc).foldl (wallLowerStep N grid.mbc 1) q)
      else if grid.ndim = 2 then
        if dim.name = "x" then
          .ok ((List.range grid.mbc).foldl (wallLowerStep N grid.mbc 1) q)
        else
          .ok ((List.range grid.mbc).foldl (wallLowerStep N grid.mbc 2) q)
      else .error (.nameError "x")
    else .ok q
  else .error (.nameError "x")

/- PetClawSolver.qbc_upper, with the same undefined-name situation in its
   raise statements. -/
def qbc_upper {α : Type} [Neg α] (user_bc_upper : (Nat → Nat → α) → Nat → Nat → α)
    (grid : Grid) (dim : Dim) (N : Nat) (q : Nat → Nat → α) :
    Except PyErr (Nat → Nat → α) :=
  if dim.mthbc_upper = 0 then .ok (user_bc_upper q)
  else if dim.mthbc_upper = 1 then
    .ok (if dim.nend = dim.n then
      (List.range grid.mbc).foldl
        (fun acc (i : Nat) => copyCol N acc (-(i : Int) - 1) (-(grid.mbc : Int) - 1)) q
    else q)
  else if dim.mthbc_upper = 2 then .ok q
  else if dim.mthbc_upper = 3 then
    if dim.nend = dim.n then
      if grid.ndim = 1 then
        .ok ((List.range grid.mbc).foldl (wallUpperStep N grid.mbc 1) q)
      else if grid.ndim = 2 then
        if dim.name = "x" then
          .ok ((List.range grid.mbc).foldl (wallUpperStep N grid.mbc 1) q)
        else
          .ok ((List.range grid.mbc).foldl (wallUpperStep N grid.mbc 2) q)
      else .error (.nameError "x")
    else .ok q
  else .error (.nameError "x")

/- PetClawSolver.qbc for a one-dimensional grid: the lower fill followed by
   the upper fill on the same axis (for the single dimension of a 1D grid
   the rollaxis call of the driver is the identity).  An exception raised
   by either fill propagates. -/
def qbc1d {α : Type} [Neg α] (user_bc_lower user_bc_upper : (Nat → Nat → α) → Nat → Nat → α)
    (grid : Grid) (dim : Dim) (N : Nat) (q : Nat → Nat → α) :
    Except PyErr (Nat → Nat → α) :=
  match qbc_lower user_bc_lower grid dim N q with
  | .error e => .error e
  | .ok q1 => qbc_upper user_bc_upper grid dim N q1

/- The solver attributes read by PetClawSolver.communicateCFL, one record
   per partition of the parallel run. -/
structure CFLSolver where
  dt_variable : Bool
  cfl : ℚ

/- MPI Allreduce with MPI.MAX: the received buffer holds the maximum of the
   values sent by all participating partitions (it does not depend on the
   initial contents of the receive buffer). -/
def allreduceMax : List ℚ → ℚ
  | [] => 0
  | c :: cs => cs.foldl max c

/- PetClawSolver.communicateCFL, executed jointly by every partition of the
   world: each partition with dt_variable set replaces its cfl by the
   all-reduced maximum of the cfl values of all partitions. -/
def communicateCFL (world : List CFLSolver) : List CFLSolver :=
  world.map (fun s =>
    if s.dt_variable then { s with cfl := allreduceMax (world.map CFLSolver.cfl) } else s)

/- Nondimensionalized radius of the earth, from the shallow-sphere app. -/
def Rsphere : ℚ := 1

/- The divisor d of mapc2p_sphere_nonvectorized, per input point: the chain
   of wrap and reflection adjustments of the computational coordinates,
   then d = max(max(abs xc, abs yc), 1e-10). -/
def mapc2p_sphere_nonvectorized_d (xcIn ycIn : ℚ) : ℚ :=
  let xc := if 1 ≤ xcIn then xcIn - 4 else xcIn
  let xc := if xc ≤ -3 then xc + 4 else xc
  let yc := ycIn
  let p := if 1 ≤ yc then (-2 - xc, 2 - yc) else (xc, yc)
  let xc := p.1
  let yc := p.2
  let p2 := if yc ≤ -1 then (-2 - xc, -2 - yc) else (xc, yc)
  let xc := p2.1
  let yc := p2.2
  let xc := if xc ≤ -1 then -2 - xc else xc
  let xc1 := |xc|
  let yc1 := |yc|
  max (max xc1 yc1) (1 / 10000000000)

/- The divisor d of mapc2p_sphere_vectorized, per input point: the
   where-mask adjustments act pointwise, then d = max(abs xc, abs yc)
   followed by d = max(d, 1e-10). -/
def mapc2p_sphere_vectorized_d (xcIn ycIn : ℚ) : ℚ :=
  let p := if ycIn < -1 then (-xcIn - 2, -ycIn - 2) else (xcIn, ycIn)
  let xc := p.1
  let yc := p.2
  let xc := if xc < -1 then -2 - xc else xc
  let d := max |xc| |yc|
  max d (1 / 10000000000)

/- The numpy and math library functions used by qinit, abstracted: the
   claims about qinit do not depend on their values.  The field pi models
   the defined name np.pi; the bare name pi read by the third-quadrant
   branch of qinit is not among the names in scope. -/
structure NpOps where
  sqrt : ℚ → ℚ
  arcsin : ℚ → ℚ
  cos : ℚ → ℚ
  sin : ℚ → ℚ
  fpow : ℚ → ℚ → ℚ
  pi : ℚ

/- The theta computation of qinit.  The third branch evaluates
   -pi + np.arcsin(-yp/rad) with pi an undefined bare name, so it raises
   NameError on pi.  If no branch matched (which cannot happen), the later
   read of theta would raise NameError on theta. -/
def qinit_theta (ops : NpOps) (xp yp rad : ℚ) : Except PyErr ℚ :=
  if 0 ≤ xp ∧ 0 ≤ yp then .ok (ops.arcsin (yp / rad))
  else if xp ≤ 0 ∧ 0 ≤ yp then .ok (ops.pi - ops.arcsin (yp / rad))
  else if xp ≤ 0 ∧ yp ≤ 0 then .error (.nameError "pi")
  else if 0 ≤ xp ∧ yp ≤ 0 then .ok (-(ops.arcsin (-yp / rad)))
  else .error (.nameError "theta")

/- The body of the qinit double loop for one cell, given the physical
   coordinates of the cell center: when the theta computation raises, the
   exception propagates and the four q components of the cell are never
   assigned; otherwise the four assigned values are returned. -/
def qinit_cell (ops : NpOps) (xp0 yp0 zp0 : ℚ) : Except PyErr (Fin 4 → ℚ) :=
  let a : ℚ := 6371220
  let K : ℚ := 7848 / 1000000000
  let Omega : ℚ := 7292 / 100000000
  let G : ℚ := 980616 / 100000
  let t0 : ℚ := 86400
  let h0 : ℚ := 8000
  let R : ℚ := 4
  let rad := max (ops.sqrt (xp0 ^ 2 + yp0 ^ 2)) (1 / 1000000)
  match qinit_theta ops xp0 yp0 rad with
  | .error e => .error e
  | .ok theta =>
    let phi := if 0 ≤ zp0 then ops.arcsin (zp0 / Rsphere) else -(ops.arcsin (-zp0 / Rsphere))
    let xp := theta
    let yp := phi
    let bigA := 1/2 * K * (2 * Omega + K) * ops.fpow (ops.cos yp) 2
      + 1/4 * K * K * ops.fpow (ops.cos yp) (2 * R)
        * ((R + 1) * ops.fpow (ops.cos yp) 2 + (2 * R * R - R - 2)
           - 2 * R * R * ops.fpow (ops.cos yp) (-2))
    let bigB := (2 * (Omega + K) * K) / ((R + 1) * (R + 2))
      * ops.fpow (ops.cos yp) R
      * ((R * R + 2 * R + 2) - (R + 1) ^ 2 * ops.fpow (ops.cos yp) 2)
    let bigC := 1/4 * K * K * ops.fpow (ops.cos yp) (2 * R)
      * ((R + 1) * ops.fpow (ops.cos yp) 2 - (R + 2))
    let Uin0 := (K * ops.cos yp + K * ops.fpow (ops.cos yp) (R - 1)
      * (R * ops.fpow (ops.sin yp) 2 - ops.fpow (ops.cos yp) 2) * ops.cos (R * xp)) * t0
    let Uin1 := (-K * R * ops.fpow (ops.cos yp) (R - 1) * ops.sin yp * ops.sin (R * xp)) * t0
    let Uout0 := -(ops.sin xp) * Uin0 - ops.sin yp * ops.cos xp * Uin1
    let Uout1 := ops.cos xp * Uin0 - ops.sin yp * ops.sin xp * Uin1
    let Uout2 := ops.cos yp * Uin1
    let q0 := h0 / a + (a / G) * (bigA + bigB * ops.cos (R * xp) + bigC * ops.cos (2 * R * xp))
    .ok ![q0, q0 * Uout0, q0 * Uout1, q0 * Uout2]

/- The qinit double loop over the physical cell-center coordinates, in loop
   order, threading the q array (cell index to the four components).  The
   first exception raised in a cell body aborts the whole routine. -/
def qinit_go (ops : NpOps) : List (ℚ × ℚ × ℚ) → Nat → (Nat → Fin 4 → ℚ) →
    Except PyErr (Nat → Fin 4 → ℚ)
  | [], _, q => .ok q
  | (xp, yp, zp) :: rest, idx, q =>
    match qinit_cell ops xp yp zp with
    | .error e => .error e
    | .ok vals => qinit_go ops rest (idx + 1) (fun i k => if i = idx then vals k else q i k)

/- Index arithmetic for the Python indices appearing in the fills. -/

theorem pyIdx_natCast (len i : Nat) : pyIdx len (i : Int) = i := by
  unfold pyIdx
  split
  · omega
  · omega

theorem pyIdx_negSucc (len i : Nat) : pyIdx len (-(i : Int) - 1) = len - (i + 1) := by
  unfold pyIdx
  split
  · omega
  · omega

theorem pyIdx_wall_lower_src (len mbc i : Nat) (h : i ≤ mbc + 1) :
    pyIdx len ((mbc : Int) + 1 - (i : Int)) = mbc + 1 - i := by
  unfold pyIdx
  split
  · omega
  · omega

theorem pyIdx_wall_upper_src (len mbc i : Nat) (h : i < mbc + 2) :
    pyIdx len (-(mbc : Int) - 2 + (i : Int)) = len - (mbc + 2 - i) := by
  unfold pyIdx
  split
  · omega
  · omega

theorem copyCol_apply {α : Type} (N : Nat) (q : Nat → Nat → α) (dst src : Int) (c j : Nat) :
    copyCol N q dst src c j = if j = pyIdx N dst then q c (pyIdx N src) else q c j := rfl

/- A fold over List.range k leaves an entry alone when no iteration writes
   that entry. -/
theorem foldl_range_untouched {α : Type} (step : (Nat → Nat → α) → Nat → (Nat → Nat → α))
    (k : Nat) (q : Nat → Nat → α) (c j : Nat)
    (h : ∀ acc i, i < k → step acc i c j = acc c j) :
    ((List.range k).foldl step q) c j = q c j := by
  induction k with
  | zero => simp
  | succ k ih =>
    rw [List.range_succ, List.foldl_append, List.foldl_cons, List.foldl_nil]
    rw [h _ k (Nat.lt_succ_self k)]
    exact ih (fun acc i hi => h acc i (by omega))

/- Zero-order extrapolation, lower side: after the loop, every column below
   k holds the value of the first interior column mbc, and every other
   column is unchanged. -/
theorem extrap_lower_fold {α : Type} (N : Nat) (q : Nat → Nat → α) (mbc : Nat) :
    ∀ (k c j : Nat),
      ((List.range k).foldl (fun acc (i : Nat) => copyCol N acc (i : Int) (mbc : Int)) q) c j
        = if j < k then q c mbc else q c j := by
  intro k
  induction k with
  | zero => intro c j; simp
  | succ k ih =>
    intro c j
    rw [List.range_succ, List.foldl_append, List.foldl_cons, List.foldl_nil]
    rw [copyCol_apply, pyIdx_natCast, pyIdx_natCast, ih c mbc, ih c j]
    split_ifs <;> first | rfl | omega

/- Zero-order extrapolation, upper side: after the loop over range k with
   k at most mbc, the top k columns hold the value of the last interior
   column N - (mbc + 1), and every other column is unchanged. -/
theorem extrap_upper_fold {α : Type} (N : Nat) (q : Nat → Nat → α) (mbc : Nat)
    (hmN : mbc + 1 ≤ N) :
    ∀ (k : Nat), k ≤ mbc → ∀ (c j : Nat),
      ((List.range k).foldl
          (fun acc (i : Nat) => copyCol N acc (-(i : Int) - 1) (-(mbc : Int) - 1)) q) c j
        = if N - k ≤ j ∧ j < N then q c (N - (mbc + 1)) else q c j := by
  intro k
  induction k with
  | zero =>
    intro _ c j
    simp only [List.range_zero, List.foldl_nil]
    rw [if_neg (by omega)]
  | succ k ih =>
    intro hk c j
    rw [List.range_succ, List.foldl_append, List.foldl_cons, List.foldl_nil]
    rw [copyCol_apply, pyIdx_negSucc, pyIdx_negSucc, ih (by omega) c (N - (mbc + 1)),
      ih (by omega) c j]
    split_ifs <;> first | rfl | omega

/- The write of one solid-wall iteration of the lower fill, entrywise: the
   ghost column i takes the column mbc + 1 - i, with component comp
   negated, and nothing else changes. -/
theorem wallLowerStep_apply {α : Type} [Neg α] (N mbc comp : Nat)
    (acc : Nat → Nat → α) (i : Nat) (hi : i ≤ mbc + 1) (c j : Nat) :
    wallLowerStep N mbc comp acc i c j
      = if j = i then
          (if c = comp then -acc c (mbc + 1 - i) else acc c (mbc + 1 - i))
        else acc c j := by
  unfold wallLowerStep negEntry copyCol
  rw [pyIdx_natCast, pyIdx_wall_lower_src N mbc i hi]
  by_cases hj : j = i <;> by_cases hc : c = comp <;> simp [hj, hc]

/- The write of one solid-wall iteration of the upper fill, entrywise. -/
theorem wallUpperStep_apply {α : Type} [Neg α] (N mbc comp : Nat)
    (acc : Nat → Nat → α) (i : Nat) (hi : i < mbc + 2) (c j : Nat) :
    wallUpperStep N mbc comp acc i c j
      = if j = N - (i + 1) then
          (if c = comp then -acc c (N - (mbc + 2 - i)) else acc c (N - (mbc + 2 - i)))
        else acc c j := by
  unfold wallUpperStep negEntry copyCol
  rw [pyIdx_negSucc, pyIdx_wall_upper_src N mbc i hi]
  by_cases hj : j = N - (i + 1) <;> by_cases hc : c = comp <;> simp [hj, hc]

/- Interior frame lemmas: each of the four loops writes only its own ghost
   columns. -/

theorem extrap_lower_untouched {α : Type} (N : Nat) (q : Nat → Nat → α)
    (mbc c j : Nat) (hj : mbc ≤ j) :
    ((List.range mbc).foldl (fun acc (i : Nat) => copyCol N acc (i : Int) (mbc : Int)) q) c j
      = q c j := by
  refine foldl_range_untouched _ mbc q c j (fun acc i hi => ?_)
  rw [copyCol_apply, pyIdx_natCast, if_neg (by omega)]

theorem extrap_upper_untouched {α : Type} (N : Nat) (q : Nat → Nat → α)
    (mbc c j : Nat) (hj : j < N - mbc) :
    ((List.range mbc).foldl
        (fun acc (i : Nat) => copyCol N acc (-(i : Int) - 1) (-(mbc : Int) - 1)) q) c j
      = q c j := by
  refine foldl_range_untouched _ mbc q c j (fun acc i hi => ?_)
  rw [copyCol_apply, pyIdx_negSucc, if_neg (by omega)]

theorem wall_lower_untouched {α : Type} [Neg α] (N : Nat) (q : Nat → Nat → α)
    (mbc comp c j : Nat) (hj : mbc ≤ j) :
    ((List.range mbc).foldl (wallLowerStep N mbc comp) q) c j = q c j := by
  refine foldl_range_untouched _ mbc q c j (fun acc i hi => ?_)
  rw [wallLowerStep_apply N mbc comp acc i (by omega), if_neg (by omega)]

theorem wall_upper_untouched {α : Type} [Neg α] (N : Nat) (q : Nat → Nat → α)
    (mbc comp c j : Nat) (hj : j < N - mbc) :
    ((List.range mbc).foldl (wallUpperStep N mbc comp) q) c j = q c j := by
  refine foldl_range_untouched _ mbc q c j (fun acc i hi => ?_)
  rw [wallUpperStep_apply N mbc comp acc i (by omega), if_neg (by omega)]

/- The two iterations of the solid-wall loops for ghost width two, written
   out entrywise. -/

theorem wallLowerStep_two_zero {α : Type} [Neg α] (N comp : Nat)
    (acc : Nat → Nat → α) (c j : Nat) :
    wallLowerStep N 2 comp acc 0 c j
      = if j = 0 then (if c = comp then -acc c 3 else acc c 3) else acc c j := by
  rw [wallLowerStep_apply N 2 comp acc 0 (by omega) c j]

theorem wallLowerStep_two_one {α : Type} [Neg α] (N comp : Nat)
    (acc : Nat → Nat → α) (c j : Nat) :
    wallLowerStep N 2 comp acc 1 c j
      = if j = 1 then (if c = comp then -acc c 2 else acc c 2) else acc c j := by
  rw [wallLowerStep_apply N 2 comp acc 1 (by omega) c j]

theorem wallUpperStep_two_zero {α : Type} [Neg α] (N comp : Nat)
    (acc : Nat → Nat → α) (c j : Nat) :
    wallUpperStep N 2 comp acc 0 c j
      = if j = N - 1 then
          (if c = comp then -acc c (N - 4) else acc c (N - 4))
        else acc c j := by
  rw [wallUpperStep_apply N 2 comp acc 0 (by omega) c j]

theorem wallUpperStep_two_one {α : Type} [Neg α] (N comp : Nat)
    (acc : Nat → Nat → α) (c j : Nat) :
    wallUpperStep N 2 comp acc 1 c j
      = if j = N - 2 then
          (if c = comp then -acc c (N - 3) else acc c (N - 3))
        else acc c j := by
  rw [wallUpperStep_apply N 2 comp acc 1 (by omega) c j]

/- Solid wall with ghost width two, lower side: ghost column j of the
   result holds the mirrored interior column 2 * 2 - 1 - j, with component
   comp negated. -/
theorem wall_lower_ghost_two {α : Type} [Neg α] (N comp : Nat) (q : Nat → Nat → α)
    (c j : Nat) (hj : j < 2) :
    ((List.range 2).foldl (wallLowerStep N 2 comp) q) c j
      = if c = comp then -q c (2 * 2 - 1 - j) else q c (2 * 2 - 1 - j) := by
  rw [show List.range 2 = [0, 1] from rfl, List.foldl_cons, List.foldl_cons, List.foldl_nil]
  interval_cases j
  · rw [wallLowerStep_two_one, if_neg (by omega), wallLowerStep_two_zero, if_pos rfl]
  · rw [wallLowerStep_two_one, if_pos rfl, wallLowerStep_two_zero,
      if_neg (show ¬((2 : Nat) = 0) by omega)]

/- Solid wall with ghost width two, upper side: ghost column j of the
   result holds the mirrored interior column 2 * (N - 2) - 1 - j, with
   component comp negated. -/
theorem wall_upper_ghost_two {α : Type} [Neg α] (N comp : Nat) (q : Nat → Nat → α)
    (hN : 6 ≤ N) (c j : Nat) (hj1 : N - 2 ≤ j) (hj2 : j < N) :
    ((List.range 2).foldl (wallUpperStep N 2 comp) q) c j
      = if c = comp then -q c (2 * (N - 2) - 1 - j) else q c (2 * (N - 2) - 1 - j) := by
  rw [show List.range 2 = [0, 1] from rfl, List.foldl_cons, List.foldl_cons, List.foldl_nil]
  rcases (by omega : j = N - 2 ∨ j = N - 1) with hj | hj
  · subst hj
    rw [wallUpperStep_two_one, if_pos rfl]
    have hm : 2 * (N - 2) - 1 - (N - 2) = N - 3 := by omega
    rw [hm]
    by_cases hc : c = comp
    · rw [if_pos hc, wallUpperStep_two_zero, if_neg (by omega), if_pos hc]
    · rw [if_neg hc, wallUpperStep_two_zero, if_neg (by omega), if_neg hc]
  · subst hj
    rw [wallUpperStep_two_one, if_neg (by omega), wallUpperStep_two_zero, if_pos rfl]
    have hm : 2 * (N - 2) - 1 - (N - 1) = N - 4 := by omega
    rw [hm]

/- Characterization of the all-reduced maximum. -/

theorem le_foldl_max (l : List ℚ) : ∀ b : ℚ, b ≤ l.foldl max b := by
  induction l with
  | nil => intro b; simp
  | cons a t ih =>
    intro b
    rw [List.foldl_cons]
    exact le_trans (le_max_left b a) (ih (max b a))

theorem mem_le_foldl_max (l : List ℚ) : ∀ (b a : ℚ), a ∈ l → a ≤ l.foldl max b := by
  induction l with
  | nil => intro b a ha; simp at ha
  | cons x t ih =>
    intro b a ha
    rw [List.foldl_cons]
    rcases List.mem_cons.mp ha with h | h
    · subst h
      exact le_trans (le_max_right b a) (le_foldl_max t (max b a))
    · exact ih (max b x) a h

theorem foldl_max_cases (l : List ℚ) : ∀ b : ℚ, l.foldl max b = b ∨ l.foldl max b ∈ l := by
  induction l with
  | nil => intro b; left; rfl
  | cons x t ih =>
    intro b
    rw [List.foldl_cons]
    rcases ih (max b x) with h | h
    · rcases max_choice b x with hm | hm
      · left
        rw [h, hm]
      · right
        rw [h, hm]
        exact List.mem_cons_self x t
    · exact Or.inr (List.mem_cons_of_mem x h)

theorem allreduceMax_is_ub (l : List ℚ) (a : ℚ) (ha : a ∈ l) : a ≤ allreduceMax l := by
  cases l with
  | nil => simp at ha
  | cons c cs =>
    unfold allreduceMax
    rcases List.mem_cons.mp ha with h | h
    · subst h; exact le_foldl_max cs a
    · exact mem_le_foldl_max cs c a h

theorem allreduceMax_mem (l : List ℚ) (hl : l ≠ []) : allreduceMax l ∈ l := by
  cases l with
  | nil => exact absurd rfl hl
  | cons c cs =>
    show cs.foldl max c ∈ c :: cs
    rcases foldl_max_cases cs c with h | h
    · rw [h]
      exact List.mem_cons_self c cs
    · exact List.mem_cons_of_mem c h

theorem entryOk_ok {α : Type} (r : Nat → Nat → α) (c i : Nat) :
    entryOk (.ok r) c i = some (r c i) := rfl

/- Concrete data for witnesses and counterexamples. -/

def userNoopZ : (Nat → Nat → Int) → Nat → Nat → Int := fun q => q

def qdemo : Nat → Nat → Int := fun c j => (10 * j + c : Int)

/-- Claim C6: for every periodic (kind 2) boundary side, the boundary fill
performs no write at all: qbc_lower and qbc_upper with kind 2 return the
ghosted array exactly as given. -/
theorem c6_periodic_noop {α : Type} [Neg α]
    (u v : (Nat → Nat → α) → Nat → Nat → α) (grid : Grid) (dim : Dim)
    (N : Nat) (q : Nat → Nat → α)
    (hl : dim.mthbc_lower = 2) (hu : dim.mthbc_upper = 2) :
    qbc_lower u grid dim N q = .ok q ∧ qbc_upper v grid dim N q = .ok q := by
  constructor
  · unfold qbc_lower
    rw [hl]
    norm_num
  · unfold qbc_upper
    rw [hu]
    norm_num

/-- Witness for C6 at a concrete configuration. -/
theorem c6_periodic_noop_witness :
    qbc_lower userNoopZ ⟨1, 2⟩ ⟨"x", 2, 2, 0, 5, 5⟩ 9 qdemo = .ok qdemo
    ∧ qbc_upper userNoopZ ⟨1, 2⟩ ⟨"x", 2, 2, 0, 5, 5⟩ 9 qdemo = .ok qdemo :=
  c6_periodic_noop userNoopZ userNoopZ ⟨1, 2⟩ ⟨"x", 2, 2, 0, 5, 5⟩ 9 qdemo rfl rfl

/-- Claim C5: for an extrapolation (kind 1) or solid-wall (kind 3) fill on a
side where the partition does not own the physical domain edge (lower side
with nstart nonzero, upper side with nend different from n), the fill
returns the ghosted array unchanged. -/
theorem c5_internal_partition_skip {α : Type} [Neg α]
    (u v : (Nat → Nat → α) → Nat → Nat → α) (grid : Grid) (dim : Dim)
    (N : Nat) (q : Nat → Nat → α) :
    ((dim.mthbc_lower = 1 ∨ dim.mthbc_lower = 3) → dim.nstart ≠ 0 →
      qbc_lower u grid dim N q = .ok q)
    ∧ ((dim.mthbc_upper = 1 ∨ dim.mthbc_upper = 3) → dim.nend ≠ dim.n →
      qbc_upper v grid dim N q = .ok q) := by
  constructor
  · intro hk hs
    rcases hk with hk | hk
    · unfold qbc_lower
      rw [hk, if_neg (show ((1 : Nat) = 0) → False by norm_num), if_pos rfl, if_neg hs]
    · unfold qbc_lower
      rw [hk, if_neg (show ((3 : Nat) = 0) → False by norm_num),
        if_neg (show ((3 : Nat) = 1) → False by norm_num),
        if_neg (show ((3 : Nat) = 2) → False by norm_num), if_pos rfl, if_neg hs]
  · intro hk hs
    rcases hk with hk | hk
    · unfold qbc_upper
      rw [hk, if_neg (show ((1 : Nat) = 0) → False by norm_num), if_pos rfl, if_neg hs]
    · unfold qbc_upper
      rw [hk, if_neg (show ((3 : Nat) = 0) → False by norm_num),
        if_neg (show ((3 : Nat) = 1) → False by norm_num),
        if_neg (show ((3 : Nat) = 2) → False by norm_num), if_pos rfl, if_neg hs]

/-- Witness for C5 at a concrete internal partition. -/
theorem c5_internal_partition_skip_witness :
    qbc_lower userNoopZ ⟨1, 2⟩ ⟨"x", 3, 3, 4, 8, 20⟩ 8 qdemo = .ok qdemo
    ∧ qbc_upper userNoopZ ⟨1, 2⟩ ⟨"x", 3, 3, 4, 8, 20⟩ 8 qdemo = .ok qdemo :=
  ⟨(c5_internal_partition_skip userNoopZ userNoopZ ⟨1, 2⟩ ⟨"x", 3, 3, 4, 8, 20⟩ 8 qdemo).1
      (Or.inr rfl) (by norm_num),
   (c5_internal_partition_skip userNoopZ userNoopZ ⟨1, 2⟩ ⟨"x", 3, 3, 4, 8, 20⟩ 8 qdemo).2
      (Or.inr rfl) (by norm_num)⟩

/-- Counterexample for C2 as stated: with the unrecognized kind 4 the fill
does fail, but the error is a NameError on the undefined name x (raised
while building the intended NotImplementedError message), not a
ConfigurationError. -/
theorem c2_counterexample :
    errOf (qbc_lower userNoopZ ⟨1, 2⟩ ⟨"x", 4, 4, 0, 5, 5⟩ 9 qdemo)
      = some (.nameError "x")
    ∧ Option.map PyErr.isConfigurationError
        (errOf (qbc_lower userNoopZ ⟨1, 2⟩ ⟨"x", 4, 4, 0, 5, 5⟩ 9 qdemo))
      = some false := by
  constructor <;> rfl

/-- Claim C2 amended: for every side whose boundary-condition kind is not
one of the recognized kinds 0, 1, 2 or 3, the boundary fill fails, with a
NameError on the undefined name x read by the raise statement (not with a
ConfigurationError, and the intended NotImplementedError naming the kind is
never constructed). -/
theorem c2_amended_unrecognized_kind {α : Type} [Neg α]
    (u v : (Nat → Nat → α) → Nat → Nat → α) (grid : Grid) (dim : Dim)
    (N : Nat) (q : Nat → Nat → α) :
    (dim.mthbc_lower ≠ 0 → dim.mthbc_lower ≠ 1 → dim.mthbc_lower ≠ 2 →
      dim.mthbc_lower ≠ 3 → qbc_lower u grid dim N q = .error (.nameError "x"))
    ∧ (dim.mthbc_upper ≠ 0 → dim.mthbc_upper ≠ 1 → dim.mthbc_upper ≠ 2 →
      dim.mthbc_upper ≠ 3 → qbc_upper v grid dim N q = .error (.nameError "x")) := by
  constructor
  · intro h0 h1 h2 h3
    unfold qbc_lower
    rw [if_neg h0, if_neg h1, if_neg h2, if_neg h3]
  · intro h0 h1 h2 h3
    unfold qbc_upper
    rw [if_neg h0, if_neg h1, if_neg h2, if_neg h3]

/-- Witness for the amended C2 at the concrete kind 4. -/
theorem c2_amended_unrecognized_kind_witness :
    qbc_upper userNoopZ ⟨1, 2⟩ ⟨"x", 4, 4, 0, 5, 5⟩ 9 qdemo
      = .error (.nameError "x") :=
  (c2_amended_unrecognized_kind userNoopZ userNoopZ ⟨1, 2⟩ ⟨"x", 4, 4, 0, 5, 5⟩ 9 qdemo).2
    (by norm_num) (by norm_num) (by norm_num) (by norm_num)

/-- Claim C7: a solid-wall (kind 3) fill on a grid with ndim 3 at a true
physical edge fills no ghost cell and raises; but what the code raises is a
NameError on the undefined name x of the raise statement, not the intended
NotImplementedError, so the claim describes the intent and the code has a
slip. -/
theorem c7_wall_3d_raises :
    qbc_lower userNoopZ ⟨3, 2⟩ ⟨"x", 3, 3, 0, 5, 5⟩ 9 qdemo
      = .error (.nameError "x")
    ∧ qbc_upper userNoopZ ⟨3, 2⟩ ⟨"x", 3, 3, 0, 5, 5⟩ 9 qdemo
      = .error (.nameError "x") := by
  constructor <;> rfl

/- Reductions of the fills to their loops, per kind and configuration. -/

theorem qbc_lower_extrap_eq {α : Type} [Neg α] (u : (Nat → Nat → α) → Nat → Nat → α)
    (grid : Grid) (dim : Dim) (N : Nat) (x : Nat → Nat → α)
    (hl : dim.mthbc_lower = 1) (hls : dim.nstart = 0) :
    qbc_lower u grid dim N x
      = .ok ((List.range grid.mbc).foldl
          (fun acc (i : Nat) => copyCol N acc (i : Int) (grid.mbc : Int)) x) := by
  unfold qbc_lower
  rw [hl, if_neg (show ((1 : Nat) = 0) → False by norm_num), if_pos rfl, if_pos hls]

theorem qbc_upper_extrap_eq {α : Type} [Neg α] (v : (Nat → Nat → α) → Nat → Nat → α)
    (grid : Grid) (dim : Dim) (N : Nat) (x : Nat → Nat → α)
    (hu : dim.mthbc_upper = 1) (hus : dim.nend = dim.n) :
    qbc_upper v grid dim N x
      = .ok ((List.range grid.mbc).foldl
          (fun acc (i : Nat) => copyCol N acc (-(i : Int) - 1) (-(grid.mbc : Int) - 1)) x) := by
  unfold qbc_upper
  rw [hu, if_neg (show ((1 : Nat) = 0) → False by norm_num), if_pos rfl, if_pos hus]

/-- Claim C3: for a zero-order-extrapolation (kind 1) fill at a true
physical edge, every ghost cell on that side equals the nearest interior
cell (column mbc below, column N - (mbc + 1) above) in every component, and
applying the fill to its own result returns that result unchanged. -/
theorem c3_extrapolation_copy_idempotent {α : Type} [Neg α]
    (u v : (Nat → Nat → α) → Nat → Nat → α) (grid : Grid) (dim : Dim)
    (N : Nat) (q : Nat → Nat → α)
    (hl : dim.mthbc_lower = 1) (hls : dim.nstart = 0)
    (hu : dim.mthbc_upper = 1) (hus : dim.nend = dim.n)
    (hN : N = dim.n + 2 * grid.mbc) (hn : 1 ≤ dim.n) :
    (∀ c j, j < grid.mbc →
      entryOk (qbc_lower u grid dim N q) c j = some (q c grid.mbc))
    ∧ (∀ c j, N - grid.mbc ≤ j → j < N →
      entryOk (qbc_upper v grid dim N q) c j = some (q c (N - (grid.mbc + 1))))
    ∧ (∀ r, qbc_lower u grid dim N q = .ok r → qbc_lower u grid dim N r = .ok r)
    ∧ (∀ r, qbc_upper v grid dim N q = .ok r → qbc_upper v grid dim N r = .ok r) := by
  have hmN : grid.mbc + 1 ≤ N := by omega
  refine ⟨?_, ?_, ?_, ?_⟩
  · intro c j hj
    rw [qbc_lower_extrap_eq u grid dim N q hl hls, entryOk_ok,
      extrap_lower_fold N q grid.mbc grid.mbc c j, if_pos hj]
  · intro c j hj1 hj2
    rw [qbc_upper_extrap_eq v grid dim N q hu hus, entryOk_ok,
      extrap_upper_fold N q grid.mbc hmN grid.mbc le_rfl c j, if_pos ⟨hj1, hj2⟩]
  · intro r hr
    rw [qbc_lower_extrap_eq u grid dim N q hl hls] at hr
    injection hr with hr
    subst hr
    rw [qbc_lower_extrap_eq u grid dim N _ hl hls]
    congr 1
    funext c j
    rw [extrap_lower_fold N _ grid.mbc grid.mbc c j]
    by_cases hj : j < grid.mbc
    · rw [if_pos hj, extrap_lower_fold N q grid.mbc grid.mbc c grid.mbc,
        if_neg (show grid.mbc < grid.mbc → False by omega),
        extrap_lower_fold N q grid.mbc grid.mbc c j, if_pos hj]
    · rw [if_neg hj]
  · intro r hr
    rw [qbc_upper_extrap_eq v grid dim N q hu hus] at hr
    injection hr with hr
    subst hr
    rw [qbc_upper_extrap_eq v grid dim N _ hu hus]
    congr 1
    funext c j
    rw [extrap_upper_fold N _ grid.mbc hmN grid.mbc le_rfl c j]
    by_cases hj : N - grid.mbc ≤ j ∧ j < N
    · rw [if_pos hj,
        extrap_upper_fold N q grid.mbc hmN grid.mbc le_rfl c (N - (grid.mbc + 1)),
        if_neg (show N - grid.mbc ≤ N - (grid.mbc + 1) ∧ N - (grid.mbc + 1) < N → False
          by omega),
        extrap_upper_fold N q grid.mbc hmN grid.mbc le_rfl c j, if_pos hj]
    · rw [if_neg hj]

/-- Witness for C3 at a concrete configuration. -/
theorem c3_extrapolation_copy_idempotent_witness :
    entryOk (qbc_lower userNoopZ ⟨1, 2⟩ ⟨"x", 1, 1, 0, 3, 3⟩ 7 qdemo) 0 1
      = some (qdemo 0 2) :=
  (c3_extrapolation_copy_idempotent userNoopZ userNoopZ ⟨1, 2⟩ ⟨"x", 1, 1, 0, 3, 3⟩ 7
      qdemo rfl rfl rfl rfl (by norm_num) (by norm_num)).1 0 1 (by norm_num)

theorem qbc_lower_wall_eq {α : Type} [Neg α] (u : (Nat → Nat → α) → Nat → Nat → α)
    (grid : Grid) (dim : Dim) (N : Nat) (x : Nat → Nat → α) (comp : Nat)
    (h3 : dim.mthbc_lower = 3) (hs : dim.nstart = 0)
    (hcomp : (grid.ndim = 1 ∧ comp = 1) ∨ (grid.ndim = 2 ∧ dim.name = "x" ∧ comp = 1)
      ∨ (grid.ndim = 2 ∧ dim.name ≠ "x" ∧ comp = 2)) :
    qbc_lower u grid dim N x
      = .ok ((List.range grid.mbc).foldl (wallLowerStep N grid.mbc comp) x) := by
  unfold qbc_lower
  rw [h3, if_neg (show ((3 : Nat) = 0) → False by norm_num),
    if_neg (show ((3 : Nat) = 1) → False by norm_num),
    if_neg (show ((3 : Nat) = 2) → False by norm_num), if_pos rfl, if_pos hs]
  rcases hcomp with ⟨h1, hc⟩ | ⟨h2, hx, hc⟩ | ⟨h2, hx, hc⟩
  · rw [if_pos h1, hc]
  · rw [if_neg (show grid.ndim = 1 → False by rw [h2]; norm_num), if_pos h2, if_pos hx, hc]
  · rw [if_neg (show grid.ndim = 1 → False by rw [h2]; norm_num), if_pos h2, if_neg hx, hc]

theorem qbc_upper_wall_eq {α : Type} [Neg α] (v : (Nat → Nat → α) → Nat → Nat → α)
    (grid : Grid) (dim : Dim) (N : Nat) (x : Nat → Nat → α) (comp : Nat)
    (h3 : dim.mthbc_upper = 3) (hs : dim.nend = dim.n)
    (hcomp : (grid.ndim = 1 ∧ comp = 1) ∨ (grid.ndim = 2 ∧ dim.name = "x" ∧ comp = 1)
      ∨ (grid.ndim = 2 ∧ dim.name ≠ "x" ∧ comp = 2)) :
    qbc_upper v grid dim N x
      = .ok ((List.range grid.mbc).foldl (wallUpperStep N grid.mbc comp) x) := by
  unfold qbc_upper
  rw [h3, if_neg (show ((3 : Nat) = 0) → False by norm_num),
    if_neg (show ((3 : Nat) = 1) → False by norm_num),
    if_neg (show ((3 : Nat) = 2) → False by norm_num), if_pos rfl, if_pos hs]
  rcases hcomp with ⟨h1, hc⟩ | ⟨h2, hx, hc⟩ | ⟨h2, hx, hc⟩
  · rw [if_pos h1, hc]
  · rw [if_neg (show grid.ndim = 1 → False by rw [h2]; norm_num), if_pos h2, if_pos hx, hc]
  · rw [if_neg (show grid.ndim = 1 → False by rw [h2]; norm_num), if_pos h2, if_neg hx, hc]

/-- Counterexample for C1 as stated: with ghost width mbc = 1 on a 1D grid
at the physical lower edge, the solid-wall fill writes ghost column 0 from
interior column 2 (the source index mbc + 1 - i of the code), not from the
mirrored interior column 2 * mbc - 1 - 0 = 1, and the two values differ on
the chosen array. -/
theorem c1_counterexample :
    entryOk (qbc_lower userNoopZ ⟨1, 1⟩ ⟨"x", 3, 3, 0, 2, 2⟩ 4 qdemo) 0 0
      = some (qdemo 0 2)
    ∧ entryOk (qbc_lower userNoopZ ⟨1, 1⟩ ⟨"x", 3, 3, 0, 2, 2⟩ 4 qdemo) 0 0
      ≠ some (qdemo 0 (2 * 1 - 1 - 0)) := by
  constructor
  · rfl
  · decide

/-- Claim C1 amended: for the ghost width mbc = 2 (for which the source
index mbc + 1 - i of the code coincides with the mirrored index
2 * mbc - 1 - i; for other widths it does not), every solid-wall ghost cell
at a true physical edge, in 1D and in 2D, equals the interior cell at the
mirrored index with the velocity component normal to the boundary
(component 1 for an x boundary, component 2 for a y boundary) negated and
every other component copied unchanged. -/
theorem c1_amended_wall_mirror {α : Type} [Neg α]
    (u v : (Nat → Nat → α) → Nat → Nat → α) (grid : Grid) (dim : Dim)
    (N : Nat) (q : Nat → Nat → α)
    (hmbc : grid.mbc = 2) (hn : 2 ≤ dim.n) (hN : N = dim.n + 2 * grid.mbc) :
    ((grid.ndim = 1 ∨ (grid.ndim = 2 ∧ dim.name = "x")) → dim.mthbc_lower = 3 →
      dim.nstart = 0 → ∀ c j, j < grid.mbc →
      entryOk (qbc_lower u grid dim N q) c j
        = some (if c = 1 then -q c (2 * grid.mbc - 1 - j) else q c (2 * grid.mbc - 1 - j)))
    ∧ ((grid.ndim = 2 ∧ dim.name ≠ "x") → dim.mthbc_lower = 3 →
      dim.nstart = 0 → ∀ c j, j < grid.mbc →
      entryOk (qbc_lower u grid dim N q) c j
        = some (if c = 2 then -q c (2 * grid.mbc - 1 - j) else q c (2 * grid.mbc - 1 - j)))
    ∧ ((grid.ndim = 1 ∨ (grid.ndim = 2 ∧ dim.name = "x")) → dim.mthbc_upper = 3 →
      dim.nend = dim.n → ∀ c j, N - grid.mbc ≤ j → j < N →
      entryOk (qbc_upper v grid dim N q) c j
        = some (if c = 1 then -q c (2 * (N - grid.mbc) - 1 - j)
            else q c (2 * (N - grid.mbc) - 1 - j)))
    ∧ ((grid.ndim = 2 ∧ dim.name ≠ "x") → dim.mthbc_upper = 3 →
      dim.nend = dim.n → ∀ c j, N - grid.mbc ≤ j → j < N →
      entryOk (qbc_upper v grid dim N q) c j
        = some (if c = 2 then -q c (2 * (N - grid.mbc) - 1 - j)
            else q c (2 * (N - grid.mbc) - 1 - j))) := by
  have hN6 : 6 ≤ N := by omega
  refine ⟨?_, ?_, ?_, ?_⟩
  · intro hd h3 hs c j hj
    have hcomp : (grid.ndim = 1 ∧ 1 = 1) ∨ (grid.ndim = 2 ∧ dim.name = "x" ∧ 1 = 1)
        ∨ (grid.ndim = 2 ∧ dim.name ≠ "x" ∧ 1 = 2) := by
      rcases hd with h | ⟨h, hx⟩
      · exact Or.inl ⟨h, rfl⟩
      · exact Or.inr (Or.inl ⟨h, hx, rfl⟩)
    rw [qbc_lower_wall_eq u grid dim N q 1 h3 hs hcomp, entryOk_ok, hmbc,
      wall_lower_ghost_two N 1 q c j (hmbc ▸ hj)]
  · intro hd h3 hs c j hj
    have hcomp : (grid.ndim = 1 ∧ 2 = 1) ∨ (grid.ndim = 2 ∧ dim.name = "x" ∧ 2 = 1)
        ∨ (grid.ndim = 2 ∧ dim.name ≠ "x" ∧ 2 = 2) :=
      Or.inr (Or.inr ⟨hd.1, hd.2, rfl⟩)
    rw [qbc_lower_wall_eq u grid dim N q 2 h3 hs hcomp, entryOk_ok, hmbc,
      wall_lower_ghost_two N 2 q c j (hmbc ▸ hj)]
  · intro hd h3 hs c j hj1 hj2
    have hcomp : (grid.ndim = 1 ∧ 1 = 1) ∨ (grid.ndim = 2 ∧ dim.name = "x" ∧ 1 = 1)
        ∨ (grid.ndim = 2 ∧ dim.name ≠ "x" ∧ 1 = 2) := by
      rcases hd with h | ⟨h, hx⟩
      · exact Or.inl ⟨h, rfl⟩
      · exact Or.inr (Or.inl ⟨h, hx, rfl⟩)
    rw [qbc_upper_wall_eq v grid dim N q 1 h3 hs hcomp, entryOk_ok, hmbc,
      wall_upper_ghost_two N 1 q hN6 c j (hmbc ▸ hj1) hj2]
  · intro hd h3 hs c j hj1 hj2
    have hcomp : (grid.ndim = 1 ∧ 2 = 1) ∨ (grid.ndim = 2 ∧ dim.name = "x" ∧ 2 = 1)
        ∨ (grid.ndim = 2 ∧ dim.name ≠ "x" ∧ 2 = 2) :=
      Or.inr (Or.inr ⟨hd.1, hd.2, rfl⟩)
    rw [qbc_upper_wall_eq v grid dim N q 2 h3 hs hcomp, entryOk_ok, hmbc,
      wall_upper_ghost_two N 2 q hN6 c j (hmbc ▸ hj1) hj2]

/-- Witness for the amended C1: a concrete 1D wall fill with mbc = 2, where
ghost column 0 of component 1 holds minus the mirrored interior value. -/
theorem c1_amended_wall_mirror_witness :
    entryOk (qbc_lower userNoopZ ⟨1, 2⟩ ⟨"x", 3, 3, 0, 2, 2⟩ 6 qdemo) 1 0
      = some (-qdemo 1 3) := by
  have h := (c1_amended_wall_mirror userNoopZ userNoopZ ⟨1, 2⟩ ⟨"x", 3, 3, 0, 2, 2⟩ 6 qdemo
      rfl (by norm_num) (by norm_num)).1 (Or.inl rfl) rfl rfl 1 0 (by norm_num)
  simpa using h

/- Interior preservation for a single side, any recognized non-user kind. -/

theorem qbc_lower_interior {α : Type} [Neg α] (u : (Nat → Nat → α) → Nat → Nat → α)
    (grid : Grid) (dim : Dim) (N : Nat) (q r : Nat → Nat → α)
    (h1 : 1 ≤ dim.mthbc_lower) (h3 : dim.mthbc_lower ≤ 3)
    (hok : qbc_lower u grid dim N q = .ok r)
    (c j : Nat) (hj : grid.mbc ≤ j) : r c j = q c j := by
  have hk : dim.mthbc_lower = 1 ∨ dim.mthbc_lower = 2 ∨ dim.mthbc_lower = 3 := by omega
  unfold qbc_lower at hok
  rcases hk with hk | hk | hk
  · rw [hk, if_neg (show ((1 : Nat) = 0) → False by norm_num), if_pos rfl] at hok
    split_ifs at hok with hs
    · injection hok with hok
      rw [← hok]
      exact extrap_lower_untouched N q grid.mbc c j hj
    · injection hok with hok
      rw [← hok]
  · rw [hk, if_neg (show ((2 : Nat) = 0) → False by norm_num),
      if_neg (show ((2 : Nat) = 1) → False by norm_num), if_pos rfl] at hok
    injection hok with hok
    rw [← hok]
  · rw [hk, if_neg (show ((3 : Nat) = 0) → False by norm_num),
      if_neg (show ((3 : Nat) = 1) → False by norm_num),
      if_neg (show ((3 : Nat) = 2) → False by norm_num), if_pos rfl] at hok
    split_ifs at hok with hs hd1 hd2 hx <;>
      (injection hok with hok
       try rw [← hok]
       try first
         | exact wall_lower_untouched N q grid.mbc 1 c j hj
         | exact wall_lower_untouched N q grid.mbc 2 c j hj)

theorem qbc_upper_interior {α : Type} [Neg α] (v : (Nat → Nat → α) → Nat → Nat → α)
    (grid : Grid) (dim : Dim) (N : Nat) (q r : Nat → Nat → α)
    (h1 : 1 ≤ dim.mthbc_upper) (h3 : dim.mthbc_upper ≤ 3)
    (hok : qbc_upper v grid dim N q = .ok r)
    (c j : Nat) (hj : j < N - grid.mbc) : r c j = q c j := by
  have hk : dim.mthbc_upper = 1 ∨ dim.mthbc_upper = 2 ∨ dim.mthbc_upper = 3 := by omega
  unfold qbc_upper at hok
  rcases hk with hk | hk | hk
  · rw [hk, if_neg (show ((1 : Nat) = 0) → False by norm_num), if_pos rfl] at hok
    split_ifs at hok with hs
    · injection hok with hok
      rw [← hok]
      exact extrap_upper_untouched N q grid.mbc c j hj
    · injection hok with hok
      rw [← hok]
  · rw [hk, if_neg (show ((2 : Nat) = 0) → False by norm_num),
      if_neg (show ((2 : Nat) = 1) → False by norm_num), if_pos rfl] at hok
    injection hok with hok
    rw [← hok]
  · rw [hk, if_neg (show ((3 : Nat) = 0) → False by norm_num),
      if_neg (show ((3 : Nat) = 1) → False by norm_num),
      if_neg (show ((3 : Nat) = 2) → False by norm_num), if_pos rfl] at hok
    split_ifs at hok with hs hd1 hd2 hx <;>
      (injection hok with hok
       try rw [← hok]
       try first
         | exact wall_upper_untouched N q grid.mbc 1 c j hj
         | exact wall_upper_untouched N q grid.mbc 2 c j hj)

/-- Claim C8: for every boundary fill with recognized non-user kinds (1, 2
or 3) that completes, only ghost columns change: every interior column
(indices mbc up to mbc + n - 1 along the dimension) of the ghosted array is
unchanged by qbc_lower, qbc_upper, and the qbc driver. -/
theorem c8_interior_frame {α : Type} [Neg α]
    (u v : (Nat → Nat → α) → Nat → Nat → α) (grid : Grid) (dim : Dim)
    (N : Nat) (q : Nat → Nat → α) (hN : N = dim.n + 2 * grid.mbc) :
    (∀ r, 1 ≤ dim.mthbc_lower → dim.mthbc_lower ≤ 3 →
      qbc_lower u grid dim N q = .ok r →
      ∀ c j, grid.mbc ≤ j → j < grid.mbc + dim.n → r c j = q c j)
    ∧ (∀ r, 1 ≤ dim.mthbc_upper → dim.mthbc_upper ≤ 3 →
      qbc_upper v grid dim N q = .ok r →
      ∀ c j, grid.mbc ≤ j → j < grid.mbc + dim.n → r c j = q c j)
    ∧ (∀ r, 1 ≤ dim.mthbc_lower → dim.mthbc_lower ≤ 3 →
      1 ≤ dim.mthbc_upper → dim.mthbc_upper ≤ 3 →
      qbc1d u v grid dim N q = .ok r →
      ∀ c j, grid.mbc ≤ j → j < grid.mbc + dim.n → r c j = q c j) := by
  refine ⟨?_, ?_, ?_⟩
  · intro r hl1 hl3 hok c j hj1 hj2
    exact qbc_lower_interior u grid dim N q r hl1 hl3 hok c j hj1
  · intro r hu1 hu3 hok c j hj1 hj2
    exact qbc_upper_interior v grid dim N q r hu1 hu3 hok c j (by omega)
  · intro r hl1 hl3 hu1 hu3 hok c j hj1 hj2
    unfold qbc1d at hok
    cases hql : qbc_lower u grid dim N q with
    | error e =>
      rw [hql] at hok
      exact absurd hok (by simp)
    | ok q1 =>
      rw [hql] at hok
      have step1 : q1 c j = q c j :=
        qbc_lower_interior u grid dim N q q1 hl1 hl3 hql c j hj1
      have step2 : r c j = q1 c j :=
        qbc_upper_interior v grid dim N q1 r hu1 hu3 hok c j (by omega)
      rw [step2, step1]

/-- Witness for C8 at a concrete configuration: a full 1D fill with
extrapolation below and solid wall above leaves an interior entry alone. -/
theorem c8_interior_frame_witness :
    entryOk (qbc1d userNoopZ userNoopZ ⟨1, 2⟩ ⟨"x", 1, 3, 0, 3, 3⟩ 7 qdemo) 0 3
      = some (qdemo 0 3) := by
  have hok : qbc1d userNoopZ userNoopZ ⟨1, 2⟩ ⟨"x", 1, 3, 0, 3, 3⟩ 7 qdemo
      = .ok ((qbc1d userNoopZ userNoopZ ⟨1, 2⟩ ⟨"x", 1, 3, 0, 3, 3⟩ 7 qdemo).toOption.get
        (by rfl)) := by rfl
  have h := (c8_interior_frame userNoopZ userNoopZ ⟨1, 2⟩ ⟨"x", 1, 3, 0, 3, 3⟩ 7 qdemo
      (by norm_num)).2.2 _ (by norm_num) (by norm_num) (by norm_num) (by norm_num)
      hok 0 3 (by norm_num) (by norm_num)
  rw [hok, entryOk_ok, h]

theorem map_update_cfl (M : ℚ) :
    ∀ (l : List CFLSolver), (∀ s ∈ l, s.dt_variable = true) →
    (l.map (fun s => if s.dt_variable then { s with cfl := M } else s)).map CFLSolver.cfl
      = List.replicate l.length M := by
  intro l
  induction l with
  | nil => intro _; rfl
  | cons s t ih =>
    intro h
    simp only [List.map_cons, List.length_cons, List.replicate_succ]
    rw [if_pos (h s (List.mem_cons_self s t))]
    congr 1
    exact ih (fun x hx => h x (List.mem_cons_of_mem s hx))

/-- Claim C4: after communicateCFL (with the blocking all-reduce modelled
as an exact maximum), every partition stores the global maximum of the
locally observed cfl values: the stored values are all equal to that
maximum, which bounds every local value and is attained by some partition,
so every partition makes the same accept or reject decision. -/
theorem c4_communicateCFL_max (world : List CFLSolver) (hne : world ≠ [])
    (hdt : ∀ s ∈ world, s.dt_variable = true) :
    ((communicateCFL world).map CFLSolver.cfl
      = List.replicate world.length (allreduceMax (world.map CFLSolver.cfl)))
    ∧ (∀ s ∈ world, s.cfl ≤ allreduceMax (world.map CFLSolver.cfl))
    ∧ (∃ s ∈ world, s.cfl = allreduceMax (world.map CFLSolver.cfl)) := by
  refine ⟨?_, ?_, ?_⟩
  · unfold communicateCFL
    exact map_update_cfl (allreduceMax (world.map CFLSolver.cfl)) world hdt
  · intro s hs
    exact allreduceMax_is_ub (world.map CFLSolver.cfl) s.cfl
      (List.mem_map_of_mem CFLSolver.cfl hs)
  · have hne2 : world.map CFLSolver.cfl ≠ [] := by
      cases world with
      | nil => exact absurd rfl hne
      | cons a t => simp
    obtain ⟨s, hs, he⟩ := List.mem_map.mp
      (allreduceMax_mem (world.map CFLSolver.cfl) hne2)
    exact ⟨s, hs, he⟩

def worldDemo : List CFLSolver := [⟨true, 1⟩, ⟨true, 3⟩, ⟨true, 2⟩]

/-- Witness for C4 on a three-partition world. -/
theorem c4_communicateCFL_max_witness :
    (communicateCFL worldDemo).map CFLSolver.cfl
      = List.replicate worldDemo.length (allreduceMax (worldDemo.map CFLSolver.cfl)) :=
  (c4_communicateCFL_max worldDemo (by simp [worldDemo])
    (by simp [worldDemo])).1

/-- Claim C9: in both sphere coordinate mappings the divisor d is clamped
below by the epsilon guard 1e-10 before the divisions xp = D / d * xc1 and
yp = D / d * yc1 are computed, so d is strictly positive for every input
point and these divisions are never by zero. -/
theorem c9_sphere_divisor_clamped (xc yc : ℚ) :
    ((1 : ℚ) / 10000000000 ≤ mapc2p_sphere_nonvectorized_d xc yc
      ∧ 0 < mapc2p_sphere_nonvectorized_d xc yc)
    ∧ ((1 : ℚ) / 10000000000 ≤ mapc2p_sphere_vectorized_d xc yc
      ∧ 0 < mapc2p_sphere_vectorized_d xc yc) := by
  have h1 : (1 : ℚ) / 10000000000 ≤ mapc2p_sphere_nonvectorized_d xc yc := by
    simp only [mapc2p_sphere_nonvectorized_d]
    exact le_max_right _ _
  have h2 : (1 : ℚ) / 10000000000 ≤ mapc2p_sphere_vectorized_d xc yc := by
    simp only [mapc2p_sphere_vectorized_d]
    exact le_max_right _ _
  exact ⟨⟨h1, lt_of_lt_of_le (by norm_num) h1⟩, ⟨h2, lt_of_lt_of_le (by norm_num) h2⟩⟩

/-- Witness for C9 at a concrete point of the third quadrant of the
computational domain. -/
theorem c9_sphere_divisor_clamped_witness :
    0 < mapc2p_sphere_nonvectorized_d (-2) (-1/2)
    ∧ 0 < mapc2p_sphere_vectorized_d (-2) (-1/2) :=
  ⟨(c9_sphere_divisor_clamped (-2) (-1/2)).1.2,
   (c9_sphere_divisor_clamped (-2) (-1/2)).2.2⟩

/- Error classification for the theta computation of qinit. -/

theorem qinit_theta_error_eq (ops : NpOps) (xp yp rad : ℚ) (e : PyErr)
    (h : qinit_theta ops xp yp rad = .error e) : e = .nameError "pi" := by
  unfold qinit_theta at h
  split_ifs at h with h1 h2 h3 h4 <;>
    first
      | exact Except.noConfusion h
      | (injection h with h
         exact h.symm)
      | (exfalso
         rcases le_total 0 xp with hx | hx <;> rcases le_total 0 yp with hy | hy <;> tauto)

theorem qinit_cell_error_eq (ops : NpOps) (xp yp zp : ℚ) (e : PyErr)
    (h : qinit_cell ops xp yp zp = .error e) : e = .nameError "pi" := by
  simp only [qinit_cell] at h
  cases ht : qinit_theta ops xp yp (max (ops.sqrt (xp ^ 2 + yp ^ 2)) (1 / 1000000)) with
  | error e2 =>
    rw [ht] at h
    simp only [Except.error.injEq] at h
    rw [← h]
    exact qinit_theta_error_eq ops xp yp _ e2 ht
  | ok theta =>
    rw [ht] at h
    exact absurd h (by simp)

/- A cell center in the third quadrant of the mapped plane sends the theta
   computation into the branch that reads the undefined bare name pi. -/
theorem qinit_cell_third_quadrant (ops : NpOps) (xp yp zp : ℚ)
    (hx : xp ≤ 0) (hy : yp < 0) :
    qinit_cell ops xp yp zp = .error (.nameError "pi") := by
  have ht : qinit_theta ops xp yp (max (ops.sqrt (xp ^ 2 + yp ^ 2)) (1 / 1000000))
      = .error (.nameError "pi") := by
    unfold qinit_theta
    rw [if_neg (show (0 ≤ xp ∧ 0 ≤ yp) → False by rintro ⟨h1, h2⟩; linarith),
      if_neg (show (xp ≤ 0 ∧ 0 ≤ yp) → False by rintro ⟨h1, h2⟩; linarith),
      if_pos ⟨hx, le_of_lt hy⟩]
  simp only [qinit_cell]
  rw [ht]

/-- Claim C10: for every list of physical cell centers containing at least
one point of the third quadrant of the mapped plane (xp at most 0 and yp
strictly negative), the qinit loop fails with a NameError on the undefined
bare name pi read while computing theta for that cell, before assigning the
q components of that cell. -/
theorem c10_qinit_third_quadrant (ops : NpOps) (cells : List (ℚ × ℚ × ℚ))
    (idx : Nat) (q0 : Nat → Fin 4 → ℚ)
    (h : ∃ p ∈ cells, p.1 ≤ 0 ∧ p.2.1 < 0) :
    qinit_go ops cells idx q0 = .error (.nameError "pi") := by
  induction cells generalizing idx q0 with
  | nil =>
    obtain ⟨p, hp, _⟩ := h
    simp at hp
  | cons cell rest ih =>
    obtain ⟨xp, yp, zp⟩ := cell
    simp only [qinit_go]
    cases hc : qinit_cell ops xp yp zp with
    | error e =>
      rw [qinit_cell_error_eq ops xp yp zp e hc]
    | ok vals =>
      obtain ⟨p, hp, hneg⟩ := h
      rcases List.mem_cons.mp hp with hph | hpr
      · exfalso
        rw [hph] at hneg
        have hbad := qinit_cell_third_quadrant ops xp yp zp hneg.1 hneg.2
        rw [hc] at hbad
        exact absurd hbad (by simp)
      · exact ih (idx + 1) _ ⟨p, hpr, hneg⟩

def opsDemo : NpOps :=
  { sqrt := fun x => x, arcsin := fun x => x, cos := fun x => x,
    sin := fun x => x, fpow := fun x _ => x, pi := 3 }

def qzero : Nat → Fin 4 → ℚ := fun _ _ => 0

/-- Witness for C10 on a one-cell grid whose cell center lies in the third
quadrant. -/
theorem c10_qinit_third_quadrant_witness :
    qinit_go opsDemo [(-1, -1, 0)] 0 qzero = .error (.nameError "pi") := by
  apply c10_qinit_third_quadrant
  refine ⟨(-1, -1, 0), ?_, ?_, ?_⟩
  · exact List.mem_singleton.mpr rfl
  · norm_num
  · norm_num

end PyClaw
